import Mathlib

/-!
Verification of the knight-lang/knightrs specification against the source.

This file shallowly embeds the parts of the repository that the claims
C1..C10 talk about:

* the 64-bit pointer-tagged `Value` representation of the bytecode
  interpreter (`src/knightrs-bytecode/src/value.rs`),
* the equality on runtime values (`PartialEq for Value` in the same file),
* the stack discipline of the VM dispatch loop
  (`src/knightrs-bytecode/src/vm/vm.rs`),
* the code emitted by the compiler for `WHILE`
  (`src/knightrs-bytecode/src/parser/parser/function.rs`),
* the persistent `List` type of the tree-walking crate
  (`src/crate/src/value/list.rs`),
* the variable table of the program builder
  (`src/knights-bytecode/src/program/builder.rs`),
* `Value::equals` of the tree-walking interpreter
  (`src/src/value/value.rs`).

Machine integers are modelled as `Nat`/`Int` with explicit `% 2^64`
wrapping where the Rust code wraps.
-/

namespace Knightrs

/-! ## Section 1: the tagged 64-bit value representation

From `src/knightrs-bytecode/src/value.rs`.  A `Value` is a 64-bit word
(`ValueRepr = u64`); heap-allocated strings and lists are pointers whose
bottom three bits are clear.  We model the word as a `Nat` (kept below
`2^64` by all constructors) and, for allocated values, inline the contents
of the pointed-to heap cell (Knight values are immutable, so a pointer
determines its cell's contents for good).
-/

def U64 : Nat := 2 ^ 64

/-- Source constant: `const REPR_NULL: ValueRepr = 0b0000_000` -/
def REPR_NULL : Nat := 0

/-- Source constant: `const REPR_FALSE: ValueRepr = 0b0000_010` -/
def REPR_FALSE : Nat := 2

/-- Source constant: `const REPR_TRUE: ValueRepr = 0b0001_010` -/
def REPR_TRUE : Nat := 10

/-- Source constant: `const TAG_BLOCK: ValueRepr = 0b100` -/
def TAG_BLOCK : Nat := 4

/-- Source constant: `const TAG_MASK: ValueRepr = 0b111` -/
def TAG_MASK : Nat := 7

/-- Source constant: `const TAG_SHIFT: ValueRepr = 3` -/
def TAG_SHIFT : Nat := 3

/-- Source constant: `const TAG_INT: ValueRepr = 1` -/
def TAG_INT : Nat := 1

/-- Source constant: `const TAG_MASK_INT: ValueRepr = 1` -/
def TAG_MASK_INT : Nat := 1

/-- Source constant: `const TAG_INT_SHIFT: ValueRepr = 1` -/
def TAG_INT_SHIFT : Nat := 1

mutual

/-- A runtime `Value`: either a scalar word (null, boolean, integer, block),
or an allocated pointer word together with the contents of the heap cell it
points to (the cell is immutable, so inlining it is faithful). -/
inductive Value : Type where
  | scalar (repr : Nat)
  | alloc (ptr : Nat) (inner : ValueInner)

/-- The contents of a heap cell (`ValueInner` in `src/knightrs-bytecode/src/gc`):
either a string (a byte sequence) or a list of values. -/
inductive ValueInner : Type where
  | knstring (bytes : List Nat)
  | list (elems : ValueList)

/-- A sequence of `Value`s (the payload of a list cell). -/
inductive ValueList : Type where
  | nil
  | cons (head : Value) (tail : ValueList)

end

/-- The `repr()` accessor: the 64-bit word of a value (for allocated values,
it is the pointer itself). -/
def Value.reprWord : Value → Nat
  | .scalar r => r
  | .alloc p _ => p

/-- Cast `i64 -> u64` (Rust `as`): the bit pattern of the signed integer. -/
def i64ToU64 (i : Int) : Nat := (i % (2 ^ 64 : Int)).toNat

/-- Cast `u64 -> i64` (Rust `as`): reinterpret the bit pattern as signed. -/
def u64ToI64 (r : Nat) : Int := if r < 2 ^ 63 then (r : Int) else (r : Int) - 2 ^ 64

/-- Arithmetic right shift by one of a 64-bit word viewed as `i64`
(the Rust expression `self.repr() as IntegerInner >> TAG_INT_SHIFT`,
returned as a bit pattern: the sign bit is replicated). -/
def asrOne (r : Nat) : Nat := if r < 2 ^ 63 then r / 2 else r / 2 + 2 ^ 63

/-- Mirrors `impl From<Integer> for Value`:
`Self::from_val((inner << TAG_INT_SHIFT) | TAG_INT)` where the shift wraps
at 64 bits. -/
def Value.fromInteger (i : Int) : Value :=
  .scalar (((i64ToU64 i <<< TAG_INT_SHIFT) % U64) ||| TAG_INT)

/-- Mirrors `impl From<Boolean> for Value`: `TRUE` or `FALSE`. -/
def Value.fromBoolean (b : Bool) : Value :=
  if b then .scalar REPR_TRUE else .scalar REPR_FALSE

/-- Mirrors `impl From<Block> for Value`:
`Self::from_val((repr << TAG_SHIFT) | TAG_BLOCK)`, with the debug assertion
that the top `TAG_SHIFT` bits of the jump index are clear. -/
def Value.fromBlock (jumpIndex : Nat) : Value :=
  .scalar (((jumpIndex <<< TAG_SHIFT) % U64) ||| TAG_BLOCK)

/-- Mirrors `Value::NULL` (`from_val(REPR_NULL)`). -/
def Value.NULL : Value := .scalar REPR_NULL

/-- Mirrors `Value::is_null`: `self.repr() == Self::NULL.repr()`. -/
def Value.is_null (v : Value) : Bool := v.reprWord == REPR_NULL

/-- Mirrors `Value::is_alloc_or_null`: `self.repr() & TAG_MASK == 0`. -/
def Value.is_alloc_or_null (v : Value) : Bool := v.reprWord &&& TAG_MASK == 0

/-- Mirrors `Value::is_alloc`: `self.is_alloc_or_null() && !self.is_null()`. -/
def Value.is_alloc (v : Value) : Bool := v.is_alloc_or_null && !v.is_null

/-- Mirrors `Value::as_integer`: if the integer tag bit is set, sign-extend after a
1-bit arithmetic right shift. -/
def Value.as_integer (v : Value) : Option Int :=
  if v.reprWord &&& TAG_MASK_INT == TAG_INT then
    some (u64ToI64 (asrOne v.reprWord))
  else
    none

/-- Mirrors `Value::as_boolean`: compares the word against `TRUE` and `FALSE`. -/
def Value.as_boolean (v : Value) : Option Bool :=
  if v.reprWord == REPR_TRUE then some true
  else if v.reprWord == REPR_FALSE then some false
  else none

/-- Mirrors `Value::as_block`: if the block tag is set, the jump index is the word
shifted right by `TAG_SHIFT`. -/
def Value.as_block (v : Value) : Option Nat :=
  if v.reprWord &&& TAG_MASK == TAG_BLOCK then some (v.reprWord >>> TAG_SHIFT)
  else none

/-- Mirrors `Value::as_list`: `None` without dereferencing unless `is_alloc`; for an
allocated value, resolve the heap cell and check its is-list flag. -/
def Value.as_list (v : Value) : Option ValueList :=
  if v.is_alloc then
    match v with
    | .alloc _ (.list l) => some l
    | _ => none
  else none

/-- Mirrors `Value::as_knstring`: `None` without dereferencing unless `is_alloc`;
for an allocated value, resolve the heap cell and check its is-string flag. -/
def Value.as_knstring (v : Value) : Option (List Nat) :=
  if v.is_alloc then
    match v with
    | .alloc _ (.knstring s) => some s
    | _ => none
  else none

/-! ### The equality on values (`impl PartialEq for Value`)

The source first compares bit patterns, then (when both sides are
allocated) compares the heap contents structurally: strings byte by byte
(`KnString`'s `PartialEq` is derived in
`src/knightrs-bytecode/src/value/string.rs`, hence byte-wise), and lists
element-wise.
-/

mutual

/-- Mirrors `impl PartialEq for Value::eq`: identical bit patterns are equal;
otherwise two allocated values are compared structurally; otherwise the
values are unequal. -/
def Value.eq : Value → Value → Bool
  | a, b =>
    if a.reprWord == b.reprWord then true
    else if !a.is_alloc || !b.is_alloc then false
    else
      match a, b with
      | .alloc _ ia, .alloc _ ib => ValueInner.eq ia ib
      | _, _ => false

/-- Structural comparison of two heap cells: strings byte-by-byte, lists
element-wise, and a string never equals a list.
Modelled from the spec: the bytecode crate's `List` equality
(`value/list.rs` is absent from the sources) compares "lists
element-wise"; string equality is the derived byte-wise `PartialEq`. -/
def ValueInner.eq : ValueInner → ValueInner → Bool
  | .knstring s, .knstring t => s == t
  | .list l, .list r => ValueList.eq l r
  | _, _ => false

/-- Element-wise comparison of two value sequences. -/
def ValueList.eq : ValueList → ValueList → Bool
  | .nil, .nil => true
  | .cons h₁ t₁, .cons h₂ t₂ => Value.eq h₁ h₂ && ValueList.eq t₁ t₂
  | _, _ => false

end

/-! ## Section 2: the persistent list type of the tree-walking crate

From `src/crate/src/value/list.rs`.  `List<'e>` is
`Option<RefCount<Inner>>` where `Inner` is `Boxed` (one value), `Slice` (a
nonempty array), `Cons` (two nonempty lists) or `Repeat` (a list and a
count `>= 2`); `None` is the empty list.  The element type is kept
abstract (`α`), standing for `Value<'e>`.  The `container-length-limit`
cfg toggle is a `Bool` parameter named `limit`.
-/

inductive KnList (α : Type) : Type where
  | empty
  | boxed (v : α)
  | slice (vs : List α)
  | cons (lhs rhs : KnList α)
  | repeated (l : KnList α) (amount : Nat)

/-- Mirrors `List::MAX_LEN = i32::MAX as usize`. -/
def KN_MAX_LEN : Nat := 2 ^ 31 - 1

/-- Mirrors `List::is_empty`: `self.0.is_none()` (the variant, not the length). -/
def KnList.is_empty {α : Type} : KnList α → Bool
  | .empty => true
  | _ => false

/-- Mirrors `List::len`: structural length (`Cons` adds, `Repeat` multiplies). -/
def KnList.len {α : Type} : KnList α → Nat
  | .empty => 0
  | .boxed _ => 1
  | .slice vs => vs.length
  | .cons lhs rhs => lhs.len + rhs.len
  | .repeated l amount => l.len * amount

/-- Produces `n` concatenated copies of `xs` (used for the `Repeat` denotation:
`Iter::Repeat` cycles the base iterator and stops after
`list.len() * amount` elements, which is exactly `amount` copies). -/
def repSeq {α : Type} : Nat → List α → List α
  | 0, _ => []
  | n + 1, xs => xs ++ repSeq n xs

/-- The sequence denoted by a list: what `Iterator for Iter` yields
(`Empty` nothing, `Boxed` one value, `Slice` the array, `Cons` left then
right, `Repeat` the base cycled `amount` times). -/
def KnList.toSeq {α : Type} : KnList α → List α
  | .empty => []
  | .boxed v => [v]
  | .slice vs => vs
  | .cons lhs rhs => lhs.toSeq ++ rhs.toSeq
  | .repeated l amount => repSeq amount l.toSeq

/-- Mirrors `impl PartialEq for List`: equal lengths and element-wise equal
iteration (`self.iter().zip(rhs.iter()).all(|(l, r)| l == r)`); the
`ptr::eq` fast path is omitted as it is subsumed by structural equality
on immutable data. -/
def KnList.eqList {α : Type} [DecidableEq α] (a b : KnList α) : Bool :=
  (a.len == b.len) && ((a.toSeq.zip b.toSeq).all fun p => p.1 == p.2)

/-- Mirrors `impl SliceFetch<usize> for List` (`get` at a single index), including
the `Repeat` arm exactly as written in the source:
`if (list.len() * amount) < self then None else list.get(self % amount)`. -/
def KnList.getIdx {α : Type} : KnList α → Nat → Option α
  | .empty, _ => none
  | .boxed v, i => if i == 0 then some v else none
  | .slice vs, i => vs.get? i
  | .cons lhs rhs, i => if i < lhs.len then lhs.getIdx i else rhs.getIdx (i - lhs.len)
  | .repeated l amount, i =>
    if l.len * amount < i then none else l.getIdx (i % amount)

/-- Mirrors `List::new`: empty input collapses to the empty list, one element is
boxed, a too-long slice errors under the length limit, otherwise `Slice`. -/
def KnList.newList {α : Type} (limit : Bool) (vs : List α) : Except Unit (KnList α) :=
  match vs with
  | [] => .ok .empty
  | [v] => .ok (.boxed v)
  | _ => if limit && decide (KN_MAX_LEN ≤ vs.length) then .error () else .ok (.slice vs)

/-- Mirrors `List::concat`: an empty side returns the other, a too-long result
errors under the length limit, otherwise a `Cons` of the two halves. -/
def KnList.concatList {α : Type} (limit : Bool) (a b : KnList α) :
    Except Unit (KnList α) :=
  if a.is_empty then .ok b
  else if b.is_empty then .ok a
  else if limit && decide (KN_MAX_LEN < a.len + b.len) then .error ()
  else .ok (.cons a b)

/-- Mirrors `List::repeat`: a too-long result errors under the length limit;
`amount = 0` yields the empty list, `amount = 1` yields `self`, otherwise a
`Repeat` node. -/
def KnList.repeatList {α : Type} (limit : Bool) (s : KnList α) (amount : Nat) :
    Except Unit (KnList α) :=
  if limit && decide (KN_MAX_LEN < s.len * amount) then .error ()
  else
    match amount with
    | 0 => .ok .empty
    | 1 => .ok s
    | _ => .ok (.repeated s amount)

/-- The shape of a successful `List::repeat` result (the three-way match
on the amount). -/
def repeatResult {α : Type} (t : KnList α) (k : Nat) : KnList α :=
  match k with
  | 0 => .empty
  | 1 => t
  | _ => .repeated t k

/-- Modelled from the spec: `KnString::repeat` of the bytecode crate (its
implementation file is absent from the sources; `kn_asterisk` in
`src/knightrs-bytecode/src/value.rs` is its caller).  Spec section 4.3:
"repeat(s,n): if n=0 return empty; if n=1 return s; else allocate
len = |s| * n; the product must fit within the optional cap."  A string is
its byte sequence. -/
def strRepeat (limit : Bool) (s : List Nat) (amount : Nat) : Except Unit (List Nat) :=
  match amount with
  | 0 => .ok []
  | 1 => .ok s
  | _ =>
    if limit && decide (KN_MAX_LEN < s.length * amount) then .error ()
    else .ok (repSeq amount s)

/-- The shape of a successful string-repeat result (the three-way match on
the amount). -/
def strRepeatResult (t : List Nat) (k : Nat) : List Nat :=
  match k with
  | 0 => []
  | 1 => t
  | _ => repSeq k t

/-! ## Section 3: `Value::equals` of the tree-walking interpreter

From `src/src/value/value.rs`.  The tree-walker's `Value` enum has
variants `Null`, `Boolean`, `Integer`, `Text`, `List`, `Variable` and
`Ast` (a block).  `Variable` and `Ast` values are identified here by an
id standing for the referenced object.
-/

mutual

inductive TwValue : Type where
  | null
  | boolean (b : Bool)
  | integer (i : Int)
  | text (chars : List Nat)
  | list (elems : TwList)
  | variableRef (id : Nat)
  | ast (id : Nat)

inductive TwList : Type where
  | nil
  | cons (head : TwValue) (tail : TwList)

end

mutual

/-- Mirrors `impl PartialEq for Value`: variant-wise structural comparison
(`Variable` and `Ast` compare by the identity of the referenced object,
modelled by the id). -/
def TwValue.beqV : TwValue → TwValue → Bool
  | .null, .null => true
  | .boolean a, .boolean b => a == b
  | .integer a, .integer b => a == b
  | .text a, .text b => a == b
  | .list a, .list b => TwList.beqL a b
  | .variableRef a, .variableRef b => a == b
  | .ast a, .ast b => a == b
  | _, _ => false

def TwList.beqL : TwList → TwList → Bool
  | .nil, .nil => true
  | .cons h₁ t₁, .cons h₂ t₂ => TwValue.beqV h₁ h₂ && TwList.beqL t₁ t₂
  | _, _ => false

end

mutual

/-- Mirrors `check_for_strict_compliance` inside `Value::equals`: `Ast` and
`Variable` arguments are rejected, lists are checked element by element;
`true` models `Ok(())`. -/
def TwValue.checkStrict : TwValue → Bool
  | .list l => TwList.checkStrict l
  | .variableRef _ => false
  | .ast _ => false
  | _ => true

def TwList.checkStrict : TwList → Bool
  | .nil => true
  | .cons h t => TwValue.checkStrict h && TwList.checkStrict t

end

/-- Mirrors `Value::equals`: when `flags().compliance.check_equals_params` is set,
both arguments pass `check_for_strict_compliance` before the derived
equality is consulted. -/
def TwValue.equals (checkEqualsParams : Bool) (a b : TwValue) : Except Unit Bool :=
  if checkEqualsParams then
    if TwValue.checkStrict a then
      if TwValue.checkStrict b then .ok (TwValue.beqV a b) else .error ()
    else .error ()
  else .ok (TwValue.beqV a b)

mutual

/-- The claim's notion of a "block-typed argument": a block itself, or a
list that transitively contains one. -/
def TwValue.containsBlock : TwValue → Bool
  | .ast _ => true
  | .list l => TwList.containsBlock l
  | _ => false

def TwList.containsBlock : TwList → Bool
  | .nil => false
  | .cons h t => TwValue.containsBlock h || TwList.containsBlock t

end

/-! ## Section 4: the builder's variable table

From `src/knights-bytecode/src/program/builder.rs`
(`Builder::variable_index`).  The insertion-ordered `IndexSet` of names is
a `List` of byte strings; `MAX_VARIABLE_COUNT = 65535`
(`src/knightrs-bytecode/src/vm/mod.rs`).
-/

def MAX_VARIABLE_COUNT : Nat := 65535

/-- Modelled from the spec: `crate::parser::MAX_VARIABLE_LEN` is not among
the sources; the spec caps variable names at 127 bytes
(`variable_name_length`). -/
def MAX_VARIABLE_LEN : Nat := 127

structure ComplianceOpts where
  variable_name_length : Bool
  variable_count : Bool

inductive ParseErrorKind : Type where
  | variableNameTooLong
  | tooManyVariables

/-- Mirrors `IndexSet::get_index_of`: position of a name in insertion order. -/
def getIndexOf {α : Type} [DecidableEq α] : List α → α → Option Nat
  | [], _ => none
  | x :: xs, a => if x = a then some 0 else (getIndexOf xs a).map (· + 1)

/-- Mirrors `Builder::variable_index`: checks the name length, reuses the index of
a known name, and otherwise inserts the name, rejecting it only when
`i > MAX_VARIABLE_COUNT` where `i` is the current number of variables. -/
def variable_index (opts : ComplianceOpts) (vars : List (List Nat))
    (name : List Nat) : Except ParseErrorKind (Nat × List (List Nat)) :=
  if opts.variable_name_length && decide (MAX_VARIABLE_LEN < name.length) then
    .error .variableNameTooLong
  else
    match getIndexOf vars name with
    | some index => .ok (index, vars)
    | none =>
      let i := vars.length
      if opts.variable_count && decide (MAX_VARIABLE_COUNT < i) then
        .error .tooManyVariables
      else
        .ok (i, vars ++ [name])

/-! ## Section 5: the VM dispatch loop

From `src/knightrs-bytecode/src/vm/vm.rs` (`Vm::run_inner`).  One
iteration of the loop fetches `(opcode, offset)`, advances the instruction
pointer, removes the top `arity` values from the operand stack
(`self.stack.set_len(self.stack.len() - opcode.arity())`), runs the
operator body, and pushes at most one result (`self.stack.push` or
`push_no_resize`).  The operand stack is a `List` whose head is the top.
Operator bodies that live outside the loop (`kn_plus`, `to_boolean`,
prompting, ...) are abstracted as oracle functions returning `Option`
(`none` models a raised error); `Return` is modelled in its
stacktrace-enabled form (`return Ok(arg![0])`).
-/

inductive Opcode : Type where
  | pushConstant
  | jump
  | jumpIfTrue
  | jumpIfFalse
  | getVar
  | setVar
  | setVarPop
  | prompt
  | random
  | dup
  | dump
  | ret
  | call
  | quit
  | output
  | length
  | notOp
  | negate
  | ascii
  | box
  | head
  | tail
  | pop
  | add
  | sub
  | mul
  | div
  | mod
  | pow
  | lth
  | gth
  | eql
  | get
  | set
deriving DecidableEq

/-- Modelled from the spec: `Opcode::arity` (`vm/opcode.rs` is absent from
the sources).  Spec section 4.6 lists arity 0 for `PushConstant`, `GetVar`,
`SetVar` (peeks one), `Prompt`, `Random`, `Dup`; arity 1 for `Return`,
`Call`, `Quit`, `Output`, `Length`, `Not`, `Negate`, `Ascii`, `Box`,
`Head`, `Tail`, `Pop` and the conditional jumps (which read one value);
arity 2 for the binary operators; arity 3 for `Get`; arity 4 for `Set`.
`Dump` has arity 0 per the comment in `vm.rs` ("its arity is 0", the
operand is peeked); `SetVarPop` is unimplemented (`todo!()`) and its arity
is never consulted. -/
def Opcode.arity : Opcode → Nat
  | .pushConstant | .jump | .getVar | .setVar | .setVarPop
  | .prompt | .random | .dup | .dump => 0
  | .jumpIfTrue | .jumpIfFalse
  | .ret | .call | .quit | .output | .length | .notOp | .negate | .ascii
  | .box | .head | .tail | .pop => 1
  | .add | .sub | .mul | .div | .mod | .pow | .lth | .gth | .eql => 2
  | .get => 3
  | .set => 4

/-- The three opcodes that use the jump mechanism. -/
def Opcode.isJump : Opcode → Bool
  | .jump | .jumpIfTrue | .jumpIfFalse => true
  | _ => false

/-- The operator bodies and environment operations invoked by the loop,
abstracted over the value type; `none` models a raised error. -/
structure VmOracle (α : Type) where
  nullValue : α
  boolValue : Bool → α
  constantAt : Nat → α
  toBoolean : α → Option Bool
  knDump : α → Option Unit
  knCall : α → Option α
  quitStatus : α → Option Unit
  outputText : α → Option Unit
  promptLine : Option (Option α)
  randomInt : Option α
  knLength : α → Option α
  knNot : α → Option α
  knNegate : α → Option α
  knAscii : α → Option α
  boxValue : α → α
  knHead : α → Option α
  knTail : α → Option α
  knPlus : α → α → Option α
  knMinus : α → α → Option α
  knAsterisk : α → α → Option α
  knSlash : α → α → Option α
  knPercent : α → α → Option α
  knCaret : α → α → Option α
  knCompare : α → α → Option Ordering
  knEquals : α → α → Option Bool
  knGet : α → α → α → Option α
  knSet : α → α → α → α → Option α

/-- The loop state: operand stack (head = top), instruction pointer,
variable slots. -/
structure VmState (α : Type) where
  stack : List α
  currentIndex : Nat
  vars : List (Option α)

/-- The outcome of one dispatch iteration: continue at a new state, return
a value (`Opcode::Return`), or raise. -/
inductive StepOutcome (α : Type) where
  | next (s : VmState α)
  | done (result : α)
  | error

/-- The body of one dispatch iteration, split on the fetched opcode: pop
the arity, run the operator body, push the result (if any).  Underflows
and `todo!()`s are `.error`. -/
def execOpcode {α : Type} (o : VmOracle α) (offset ip : Nat) (s : VmState α) :
    Opcode → StepOutcome α
  | .pushConstant => .next { s with stack := o.constantAt offset :: s.stack, currentIndex := ip }
  | .jump => .next { s with currentIndex := offset }
  | .jumpIfTrue =>
    match s.stack with
    | a :: rest =>
      match o.toBoolean a with
      | some true => .next { s with stack := rest, currentIndex := offset }
      | some false => .next { s with stack := rest, currentIndex := ip }
      | none => .error
    | [] => .error
  | .jumpIfFalse =>
    match s.stack with
    | a :: rest =>
      match o.toBoolean a with
      | some true => .next { s with stack := rest, currentIndex := ip }
      | some false => .next { s with stack := rest, currentIndex := offset }
      | none => .error
    | [] => .error
  | .getVar =>
    match s.vars.get? offset with
    | some (some v) => .next { s with stack := v :: s.stack, currentIndex := ip }
    | some none => .error
    | none => .error
  | .setVar =>
    match s.stack with
    | v :: _ => .next { s with vars := s.vars.set offset (some v), currentIndex := ip }
    | [] => .error
  | .setVarPop => .error
  | .prompt =>
    match o.promptLine with
    | some (some v) => .next { s with stack := v :: s.stack, currentIndex := ip }
    | some none => .next { s with stack := o.nullValue :: s.stack, currentIndex := ip }
    | none => .error
  | .random =>
    match o.randomInt with
    | some v => .next { s with stack := v :: s.stack, currentIndex := ip }
    | none => .error
  | .dup =>
    match s.stack with
    | v :: _ => .next { s with stack := v :: s.stack, currentIndex := ip }
    | [] => .error
  | .dump =>
    match s.stack with
    | v :: _ =>
      match o.knDump v with
      | some _ => .next { s with currentIndex := ip }
      | none => .error
    | [] => .error
  | .ret =>
    match s.stack with
    | v :: _ => .done v
    | [] => .error
  | .call =>
    match s.stack with
    | a :: rest =>
      match o.knCall a with
      | some v => .next { s with stack := v :: rest, currentIndex := ip }
      | none => .error
    | [] => .error
  | .quit =>
    match s.stack with
    | a :: rest =>
      match o.quitStatus a with
      | some _ => .next { s with stack := rest, currentIndex := ip }
      | none => .error
    | [] => .error
  | .output =>
    match s.stack with
    | a :: rest =>
      match o.outputText a with
      | some _ => .next { s with stack := o.nullValue :: rest, currentIndex := ip }
      | none => .error
    | [] => .error
  | .length =>
    match s.stack with
    | a :: rest =>
      match o.knLength a with
      | some v => .next { s with stack := v :: rest, currentIndex := ip }
      | none => .error
    | [] => .error
  | .notOp =>
    match s.stack with
    | a :: rest =>
      match o.knNot a with
      | some v => .next { s with stack := v :: rest, currentIndex := ip }
      | none => .error
    | [] => .error
  | .negate =>
    match s.stack with
    | a :: rest =>
      match o.knNegate a with
      | some v => .next { s with stack := v :: rest, currentIndex := ip }
      | none => .error
    | [] => .error
  | .ascii =>
    match s.stack with
    | a :: rest =>
      match o.knAscii a with
      | some v => .next { s with stack := v :: rest, currentIndex := ip }
      | none => .error
    | [] => .error
  | .box =>
    match s.stack with
    | a :: rest => .next { s with stack := o.boxValue a :: rest, currentIndex := ip }
    | [] => .error
  | .head =>
    match s.stack with
    | a :: rest =>
      match o.knHead a with
      | some v => .next { s with stack := v :: rest, currentIndex := ip }
      | none => .error
    | [] => .error
  | .tail =>
    match s.stack with
    | a :: rest =>
      match o.knTail a with
      | some v => .next { s with stack := v :: rest, currentIndex := ip }
      | none => .error
    | [] => .error
  | .pop =>
    match s.stack with
    | _ :: rest => .next { s with stack := rest, currentIndex := ip }
    | [] => .error
  | .add =>
    match s.stack with
    | rhs :: value :: rest =>
      match o.knPlus value rhs with
      | some v => .next { s with stack := v :: rest, currentIndex := ip }
      | none => .error
    | _ => .error
  | .sub =>
    match s.stack with
    | rhs :: value :: rest =>
      match o.knMinus value rhs with
      | some v => .next { s with stack := v :: rest, currentIndex := ip }
      | none => .error
    | _ => .error
  | .mul =>
    match s.stack with
    | rhs :: value :: rest =>
      match o.knAsterisk value rhs with
      | some v => .next { s with stack := v :: rest, currentIndex := ip }
      | none => .error
    | _ => .error
  | .div =>
    match s.stack with
    | rhs :: value :: rest =>
      match o.knSlash value rhs with
      | some v => .next { s with stack := v :: rest, currentIndex := ip }
      | none => .error
    | _ => .error
  | .mod =>
    match s.stack with
    | rhs :: value :: rest =>
      match o.knPercent value rhs with
      | some v => .next { s with stack := v :: rest, currentIndex := ip }
      | none => .error
    | _ => .error
  | .pow =>
    match s.stack with
    | rhs :: value :: rest =>
      match o.knCaret value rhs with
      | some v => .next { s with stack := v :: rest, currentIndex := ip }
      | none => .error
    | _ => .error
  | .lth =>
    match s.stack with
    | rhs :: value :: rest =>
      match o.knCompare value rhs with
      | some ord => .next
        { s with stack := o.boolValue (ord == Ordering.lt) :: rest, currentIndex := ip }
      | none => .error
    | _ => .error
  | .gth =>
    match s.stack with
    | rhs :: value :: rest =>
      match o.knCompare value rhs with
      | some ord => .next
        { s with stack := o.boolValue (ord == Ordering.gt) :: rest, currentIndex := ip }
      | none => .error
    | _ => .error
  | .eql =>
    match s.stack with
    | rhs :: value :: rest =>
      match o.knEquals value rhs with
      | some b => .next { s with stack := o.boolValue b :: rest, currentIndex := ip }
      | none => .error
    | _ => .error
  | .get =>
    match s.stack with
    | len :: start :: value :: rest =>
      match o.knGet value start len with
      | some v => .next { s with stack := v :: rest, currentIndex := ip }
      | none => .error
    | _ => .error
  | .set =>
    match s.stack with
    | repl :: len :: start :: value :: rest =>
      match o.knSet value start len repl with
      | some v => .next { s with stack := v :: rest, currentIndex := ip }
      | none => .error
    | _ => .error

/-- One iteration of `Vm::run_inner`'s `loop`: fetch `(opcode, offset)` at
the current index, advance the instruction pointer by one, and execute the
opcode. -/
def vmStep {α : Type} (code : Nat → Opcode × Nat) (o : VmOracle α)
    (s : VmState α) : StepOutcome α :=
  execOpcode o (code s.currentIndex).2 (s.currentIndex + 1) s (code s.currentIndex).1

/-- A concrete oracle over `Nat` values used to exercise the dispatch
loop on closed inputs. -/
def natOracle : VmOracle Nat where
  nullValue := 0
  boolValue := fun b => if b then 1 else 0
  constantAt := fun _ => 42
  toBoolean := fun v => some (decide (v ≠ 0))
  knDump := fun _ => some ()
  knCall := fun v => some v
  quitStatus := fun _ => some ()
  outputText := fun _ => some ()
  promptLine := some none
  randomInt := some 4
  knLength := fun v => some v
  knNot := fun v => some v
  knNegate := fun v => some v
  knAscii := fun v => some v
  boxValue := fun v => v
  knHead := fun v => some v
  knTail := fun v => some v
  knPlus := fun a b => some (a + b)
  knMinus := fun a b => some (a - b)
  knAsterisk := fun a b => some (a * b)
  knSlash := fun a b => some (a / b)
  knPercent := fun a b => some (a % b)
  knCaret := fun a b => some (a ^ b)
  knCompare := fun a b => some (compare a b)
  knEquals := fun a b => some (a == b)
  knGet := fun a _ _ => some a
  knSet := fun a _ _ _ => some a

/-! ## Section 6: the compiler's `WHILE` emission

From the `'W'` branch of `Parseable_OLD for Function`
(`src/knightrs-bytecode/src/parser/parser/function.rs`) and the builder
(`src/knights-bytecode/src/program/builder.rs`): `defer_jump` pushes a
placeholder (`0` in the source, `none` here) and `jump_to` patches it with
the jump opcode and the absolute target, asserting the placeholder is
still unpatched.  Compiling a sub-expression is abstracted as appending
its already-compiled instructions.
-/

structure Compiler where
  code : List (Option (Opcode × Nat))

inductive JumpWhen : Type where
  | always
  | ifTrue
  | ifFalse

/-- The opcode a deferred jump is patched with (`DeferredJump::jump_to`). -/
def JumpWhen.opcode : JumpWhen → Opcode
  | .always => .jump
  | .ifTrue => .jumpIfTrue
  | .ifFalse => .jumpIfFalse

/-- Mirrors `Builder::jump_index`: the current instruction index. -/
def Compiler.jump_index (c : Compiler) : Nat := c.code.length

/-- Mirrors `Builder::defer_jump`: remember the current index and push a
placeholder. -/
def Compiler.defer_jump (c : Compiler) : Nat × Compiler :=
  (c.code.length, ⟨c.code ++ [none]⟩)

/-- Mirrors `DeferredJump::jump_to`: patch the placeholder at `deferredIdx` with
the jump opcode for `when` and the absolute target index. -/
def Compiler.patchJump (c : Compiler) (deferredIdx : Nat) (when : JumpWhen)
    (target : Nat) : Compiler :=
  ⟨c.code.set deferredIdx (some (when.opcode, target))⟩

/-- Mirrors `Builder::jump_to`: `defer_jump` immediately followed by `jump_to`. -/
def Compiler.jumpTo (c : Compiler) (when : JumpWhen) (target : Nat) : Compiler :=
  let d := c.defer_jump
  d.2.patchJump d.1 when target

/-- Appending the instructions of an already-compiled sub-expression
(abstracts the recursive `parse_argument` calls). -/
def Compiler.append (c : Compiler) (insns : List (Opcode × Nat)) : Compiler :=
  ⟨c.code ++ insns.map some⟩

/-- The `'W'` branch: remember `while_start`, compile the condition, defer
a jump-if-false, compile the body, emit a jump back to `while_start`, and
patch the deferred jump to the current index. -/
def compileWhile (c : Compiler) (condCode bodyCode : List (Opcode × Nat)) : Compiler :=
  let whileStart := c.jump_index
  let c₁ := c.append condCode
  let d := c₁.defer_jump
  let c₂ := d.2.append bodyCode
  let c₃ := c₂.jumpTo .always whileStart
  c₃.patchJump d.1 .ifFalse c₃.jump_index

/-- Mirrors `Builder::build` appends a final `Return` and extracts the code
(all placeholders must have been patched; an unpatched one is mapped to a
`Return` here, but the emission theorem shows none remain). -/
def Compiler.build (c : Compiler) : List (Opcode × Nat) :=
  (c.code ++ [some (Opcode.ret, 0)]).map (fun x : Option (Opcode × Nat) => x.getD (Opcode.ret, 0))

/-- Fetching an instruction of a finished program (out-of-bounds fetches
cannot happen for well-formed programs; `Return` is the default). -/
def codeAt (insns : List (Opcode × Nat)) (i : Nat) : Opcode × Nat :=
  insns.getD i (Opcode.ret, 0)

/-- The outcome of running the loop with bounded fuel. -/
inductive RunResult (α : Type) where
  | done (v : α)
  | error
  | outOfFuel
deriving DecidableEq

/-- Iterate `vmStep` until `Return`, an error, or fuel exhaustion. -/
def vmRun {α : Type} (code : Nat → Opcode × Nat) (o : VmOracle α) :
    Nat → VmState α → RunResult α
  | 0, _ => .outOfFuel
  | fuel + 1, s =>
    match vmStep code o s with
    | .next s' => vmRun code o fuel s'
    | .done v => .done v
    | .error => .error

/-- The oracle for running the compiled `WHILE FALSE 1`: constant `i` of
the pool is the value `i`, and `to_boolean` is zero-is-false. -/
def whileOracle : VmOracle Nat :=
  { natOracle with constantAt := fun i => i }

/-- The program compiled from `WHILE FALSE 1` (condition `FALSE` is the
pool constant `0`, body `1` is the pool constant `1`), finished by
`build`'s final `Return`. -/
def whileProgram : List (Opcode × Nat) :=
  (compileWhile ⟨[]⟩ [(.pushConstant, 0)] [(.pushConstant, 1)]).build

/-! ## Theorems -/

/-! ### Bridge lemmas between bitwise operations and arithmetic -/

theorem two_mul_or_one (k : Nat) : (2 * k) ||| 1 = 2 * k + 1 := by
  have h1 : (2 * k) = Nat.bit false k := by simp [Nat.bit]
  have h2 : (1 : Nat) = Nat.bit true 0 := by simp [Nat.bit]
  rw [h1, h2, Nat.lor_bit]
  simp [Nat.bit]

theorem two_mul_or_two_mul (a b : Nat) : (2 * a) ||| (2 * b) = 2 * (a ||| b) := by
  have h1 : (2 * a) = Nat.bit false a := by simp [Nat.bit]
  have h2 : (2 * b) = Nat.bit false b := by simp [Nat.bit]
  rw [h1, h2, Nat.lor_bit]
  simp [Nat.bit]

theorem eight_mul_or_four (k : Nat) : (8 * k) ||| 4 = 8 * k + 4 := by
  have h1 : (8 : Nat) * k = 2 * (2 * (2 * k)) := by ring
  have h2 : (4 : Nat) = 2 * (2 * 1) := by norm_num
  rw [h1, h2, two_mul_or_two_mul, two_mul_or_two_mul]
  have h3 : (2 * k) ||| 1 = 2 * k + 1 := two_mul_or_one k
  rw [h3]
  ring

theorem and_seven_eq_mod (n : Nat) : n &&& 7 = n % 8 := by
  have h := Nat.and_pow_two_sub_one_eq_mod n 3
  norm_num at h
  exact h

/-! ### Helper lemmas for the tagged representation -/

/-- The word produced by `From<Integer>` is `2 * (bits i % 2^63) + 1`. -/
theorem fromInteger_reprWord (i : Int) :
    (Value.fromInteger i).reprWord = 2 * (i64ToU64 i % 2 ^ 63) + 1 := by
  show ((i64ToU64 i <<< TAG_INT_SHIFT) % U64) ||| TAG_INT = _
  rw [show TAG_INT_SHIFT = 1 from rfl, show TAG_INT = 1 from rfl,
    Nat.shiftLeft_eq, pow_one, show U64 = 2 ^ 64 from rfl]
  have h : i64ToU64 i * 2 % 2 ^ 64 = 2 * (i64ToU64 i % 2 ^ 63) := by
    rw [mul_comm, show (2 : Nat) ^ 64 = 2 * 2 ^ 63 by norm_num,
      Nat.mul_mod_mul_left 2 (i64ToU64 i) (2 ^ 63)]
  rw [h, two_mul_or_one]

/-- Round trip: an integer in the 63-bit range survives the encode/decode
pair. -/
theorem fromInteger_as_integer (i : Int) (hlo : -(2 ^ 62) ≤ i) (hhi : i < 2 ^ 62) :
    (Value.fromInteger i).as_integer = some i := by
  unfold Value.as_integer
  rw [fromInteger_reprWord]
  rw [show TAG_MASK_INT = 1 from rfl, show TAG_INT = 1 from rfl, Nat.and_one_is_mod]
  have hmod : (2 * (i64ToU64 i % 2 ^ 63) + 1) % 2 = 1 := by omega
  rw [hmod]
  simp only [beq_self_eq_true, if_true, Option.some.injEq]
  unfold asrOne u64ToI64 i64ToU64
  rw [show ((2 : Int) ^ 64) = 18446744073709551616 by norm_num]
  set n : Nat := (i % (18446744073709551616 : Int)).toNat with hn
  rcases le_or_lt 0 i with hpos | hneg
  · have hni : (n : Int) = i := by
      rw [hn]
      omega
    have hlt : n < 2 ^ 62 := by omega
    have hm : n % 2 ^ 63 = n := Nat.mod_eq_of_lt (by omega)
    rw [hm, if_pos (show 2 * n + 1 < 2 ^ 63 by omega)]
    have hdiv : (2 * n + 1) / 2 = n := by omega
    rw [hdiv, if_pos (by omega)]
    omega
  · have hni : (n : Int) = i + 18446744073709551616 := by
      rw [hn]
      omega
    have hjlo : 2 ^ 64 - 2 ^ 62 ≤ n := by omega
    have hjhi : n < 2 ^ 64 := by omega
    have hm : n % 2 ^ 63 = n - 2 ^ 63 := by omega
    rw [hm, if_neg (show ¬(2 * (n - 2 ^ 63) + 1 < 2 ^ 63) by omega)]
    have hdiv : (2 * (n - 2 ^ 63) + 1) / 2 = n - 2 ^ 63 := by omega
    rw [hdiv, if_neg (by omega)]
    omega

/-- The word produced by `From<Block>` for a jump index below `2^61`
(the debug assertion `(repr << TAG_SHIFT) >> TAG_SHIFT == repr`). -/
theorem fromBlock_reprWord (k : Nat) (hk : k < 2 ^ 61) :
    (Value.fromBlock k).reprWord = 8 * k + 4 := by
  show ((k <<< TAG_SHIFT) % U64) ||| TAG_BLOCK = _
  rw [show TAG_SHIFT = 3 from rfl, show TAG_BLOCK = 4 from rfl, Nat.shiftLeft_eq,
    show U64 = 2 ^ 64 from rfl]
  have h : k * 2 ^ 3 % 2 ^ 64 = 8 * k := by
    rw [Nat.mod_eq_of_lt (by norm_num; omega)]
    ring
  rw [h, eight_mul_or_four]

/-- Classification facts for a block word `8 * k + 4`. -/
theorem fromBlock_as_block (k : Nat) (hk : k < 2 ^ 61) :
    (Value.fromBlock k).as_block = some k := by
  unfold Value.as_block
  rw [fromBlock_reprWord k hk, show TAG_MASK = 7 from rfl, show TAG_BLOCK = 4 from rfl,
    and_seven_eq_mod, show TAG_SHIFT = 3 from rfl, Nat.shiftRight_eq_div_pow]
  have h8 : (8 * k + 4) % 8 = 4 := by omega
  rw [h8]
  norm_num
  omega

/-! ## Claim theorems C1, C9, C2 -/

/-- C1: in the 64-bit tagged encoding, null is the all-zero word and
`is_null` holds only for the zero word; an integer is stored with its
lowest bit set to `1` and recovered by sign-extending after a 1-bit right
shift, so every representable integer round-trips through
`From<Integer>`/`as_integer`. -/
theorem c1_null_and_integer_encoding :
    Value.NULL.reprWord = 0 ∧
    (∀ v : Value, v.is_null = true ↔ v.reprWord = 0) ∧
    (∀ i : Int, -(2 ^ 62) ≤ i → i < 2 ^ 62 →
      (Value.fromInteger i).reprWord % 2 = 1 ∧
      (Value.fromInteger i).as_integer = some i) := by
  refine ⟨rfl, fun v => ?_, fun i hlo hhi => ⟨?_, fromInteger_as_integer i hlo hhi⟩⟩
  · unfold Value.is_null REPR_NULL
    exact beq_iff_eq
  · rw [fromInteger_reprWord]
    omega

/-- Witness for C1 at `i = 5` and `v = NULL`. -/
theorem c1_null_and_integer_encoding_witness :
    (Value.NULL.is_null = true ↔ Value.NULL.reprWord = 0) ∧
    (-(2 ^ 62) ≤ (5 : Int) ∧ (5 : Int) < 2 ^ 62 ∧
      (Value.fromInteger 5).reprWord % 2 = 1 ∧
      (Value.fromInteger 5).as_integer = some 5) :=
  ⟨c1_null_and_integer_encoding.2.1 Value.NULL,
    by norm_num,
    by norm_num,
    (c1_null_and_integer_encoding.2.2 5 (by norm_num) (by norm_num)).1,
    (c1_null_and_integer_encoding.2.2 5 (by norm_num) (by norm_num)).2⟩

/-- C9: the scalar encodings round-trip (`From<Boolean>`/`as_boolean`,
`From<Block>`/`as_block` with the same jump index,
`From<Integer>`/`as_integer`), and on each such value every classifier for
a different kind returns `None` while `is_null` is false. -/
theorem c9_scalar_roundtrip_and_exclusivity :
    (∀ b : Bool,
      (Value.fromBoolean b).as_boolean = some b ∧
      (Value.fromBoolean b).as_integer = none ∧
      (Value.fromBoolean b).as_block = none ∧
      (Value.fromBoolean b).as_list = none ∧
      (Value.fromBoolean b).as_knstring = none ∧
      (Value.fromBoolean b).is_null = false) ∧
    (∀ k : Nat, k < 2 ^ 61 →
      (Value.fromBlock k).as_block = some k ∧
      (Value.fromBlock k).as_integer = none ∧
      (Value.fromBlock k).as_boolean = none ∧
      (Value.fromBlock k).as_list = none ∧
      (Value.fromBlock k).as_knstring = none ∧
      (Value.fromBlock k).is_null = false) ∧
    (∀ i : Int, -(2 ^ 62) ≤ i → i < 2 ^ 62 →
      (Value.fromInteger i).as_integer = some i ∧
      (Value.fromInteger i).as_boolean = none ∧
      (Value.fromInteger i).as_block = none ∧
      (Value.fromInteger i).as_list = none ∧
      (Value.fromInteger i).as_knstring = none ∧
      (Value.fromInteger i).is_null = false) := by
  refine ⟨fun b => ?_, fun k hk => ?_, fun i hlo hhi => ?_⟩
  · cases b <;> exact ⟨rfl, rfl, rfl, rfl, rfl, rfl⟩
  · have hrepr := fromBlock_reprWord k hk
    have h8 : (8 * k + 4) % 8 = 4 := by omega
    refine ⟨fromBlock_as_block k hk, ?_, ?_, ?_, ?_, ?_⟩
    · unfold Value.as_integer
      rw [hrepr, show TAG_MASK_INT = 1 from rfl, show TAG_INT = 1 from rfl,
        Nat.and_one_is_mod]
      have : (8 * k + 4) % 2 = 0 := by omega
      simp [this]
    · unfold Value.as_boolean
      rw [hrepr, show REPR_TRUE = 10 from rfl, show REPR_FALSE = 2 from rfl]
      have h10 : (8 * k + 4 == 10) = false := by
        simp only [beq_eq_false_iff_ne, ne_eq]
        omega
      have h2 : (8 * k + 4 == 2) = false := by
        simp only [beq_eq_false_iff_ne, ne_eq]
        omega
      rw [h10, h2]
      rfl
    · unfold Value.as_list Value.is_alloc Value.is_alloc_or_null
      rw [hrepr, show TAG_MASK = 7 from rfl, and_seven_eq_mod, h8]
      rfl
    · unfold Value.as_knstring Value.is_alloc Value.is_alloc_or_null
      rw [hrepr, show TAG_MASK = 7 from rfl, and_seven_eq_mod, h8]
      rfl
    · unfold Value.is_null
      rw [hrepr, show REPR_NULL = 0 from rfl]
      simp only [beq_eq_false_iff_ne, ne_eq]
      omega
  · have hrepr := fromInteger_reprWord i
    set m : Nat := i64ToU64 i % 2 ^ 63 with hm
    have h2 : (2 * m + 1) % 2 = 1 := by omega
    have h8 : (2 * m + 1) % 8 ≠ 0 := by omega
    have h8' : (2 * m + 1) % 8 ≠ 4 := by omega
    refine ⟨fromInteger_as_integer i hlo hhi, ?_, ?_, ?_, ?_, ?_⟩
    · unfold Value.as_boolean
      rw [hrepr, show REPR_TRUE = 10 from rfl, show REPR_FALSE = 2 from rfl]
      have h10 : (2 * m + 1 == 10) = false := by
        simp only [beq_eq_false_iff_ne, ne_eq]
        omega
      have h2' : (2 * m + 1 == 2) = false := by
        simp only [beq_eq_false_iff_ne, ne_eq]
        omega
      rw [h10, h2']
      rfl
    · unfold Value.as_block
      rw [hrepr, show TAG_MASK = 7 from rfl, show TAG_BLOCK = 4 from rfl, and_seven_eq_mod]
      have hne : ((2 * m + 1) % 8 == 4) = false := by
        simp only [beq_eq_false_iff_ne, ne_eq]
        exact h8'
      rw [hne]
      rfl
    · unfold Value.as_list Value.is_alloc Value.is_alloc_or_null
      rw [hrepr, show TAG_MASK = 7 from rfl, and_seven_eq_mod]
      have : ((2 * m + 1) % 8 == 0) = false := by
        simp only [beq_eq_false_iff_ne, ne_eq]
        exact h8
      rw [this]
      rfl
    · unfold Value.as_knstring Value.is_alloc Value.is_alloc_or_null
      rw [hrepr, show TAG_MASK = 7 from rfl, and_seven_eq_mod]
      have : ((2 * m + 1) % 8 == 0) = false := by
        simp only [beq_eq_false_iff_ne, ne_eq]
        exact h8
      rw [this]
      rfl
    · unfold Value.is_null
      rw [hrepr, show REPR_NULL = 0 from rfl]
      simp only [beq_eq_false_iff_ne, ne_eq]
      omega

/-- Witness for C9 at `b = true`, `k = 3`, `i = -7`. -/
theorem c9_scalar_roundtrip_and_exclusivity_witness :
    (Value.fromBoolean true).as_boolean = some true ∧
    ((3 : Nat) < 2 ^ 61 ∧ (Value.fromBlock 3).as_block = some 3 ∧
      (Value.fromBlock 3).as_integer = none) ∧
    (-(2 ^ 62) ≤ (-7 : Int) ∧ (-7 : Int) < 2 ^ 62 ∧
      (Value.fromInteger (-7)).as_integer = some (-7) ∧
      (Value.fromInteger (-7)).as_boolean = none) :=
  ⟨(c9_scalar_roundtrip_and_exclusivity.1 true).1,
    ⟨by norm_num,
      (c9_scalar_roundtrip_and_exclusivity.2.1 3 (by norm_num)).1,
      (c9_scalar_roundtrip_and_exclusivity.2.1 3 (by norm_num)).2.1⟩,
    ⟨by norm_num, by norm_num,
      (c9_scalar_roundtrip_and_exclusivity.2.2 (-7) (by norm_num) (by norm_num)).1,
      (c9_scalar_roundtrip_and_exclusivity.2.2 (-7) (by norm_num) (by norm_num)).2.1⟩⟩

/-- C2: equality on runtime values is: identical bit patterns are equal;
otherwise two heap-allocated values are compared structurally (strings
byte-by-byte, lists element-wise); in every other case the values are
unequal.  In particular an integer never equals a string, and two distinct
heap cells holding the same byte sequence compare equal. -/
theorem c2_value_equality :
    (∀ a b : Value, a.reprWord = b.reprWord → Value.eq a b = true) ∧
    (∀ (p q : Nat) (ia ib : ValueInner), p % 8 = 0 → p ≠ 0 → q % 8 = 0 → q ≠ 0 →
      p ≠ q → Value.eq (.alloc p ia) (.alloc q ib) = ValueInner.eq ia ib) ∧
    (∀ s t : List Nat, ValueInner.eq (.knstring s) (.knstring t) = (s == t)) ∧
    (∀ a b : Value, a.reprWord ≠ b.reprWord →
      (a.is_alloc = false ∨ b.is_alloc = false) → Value.eq a b = false) ∧
    (∀ (i : Int) (p : Nat) (s : List Nat), p % 8 = 0 → p ≠ 0 →
      Value.eq (Value.fromInteger i) (.alloc p (.knstring s)) = false) ∧
    (∀ (p q : Nat) (s : List Nat), p % 8 = 0 → p ≠ 0 → q % 8 = 0 → q ≠ 0 →
      Value.eq (.alloc p (.knstring s)) (.alloc q (.knstring s)) = true) := by
  have halloc : ∀ (p : Nat) (ia : ValueInner), p % 8 = 0 → p ≠ 0 →
      (Value.alloc p ia).is_alloc = true := by
    intro p ia hp hp0
    unfold Value.is_alloc Value.is_alloc_or_null Value.is_null
    show (((Value.alloc p ia).reprWord &&& TAG_MASK == 0) &&
      !((Value.alloc p ia).reprWord == REPR_NULL)) = true
    show ((p &&& TAG_MASK == 0) && !(p == REPR_NULL)) = true
    rw [show TAG_MASK = 7 from rfl, show REPR_NULL = 0 from rfl, and_seven_eq_mod, hp]
    simp only [beq_self_eq_true, Bool.true_and, Bool.not_eq_true']
    simp only [beq_eq_false_iff_ne, ne_eq]
    exact hp0
  have hsame : ∀ a b : Value, a.reprWord = b.reprWord → Value.eq a b = true := by
    intro a b h
    unfold Value.eq
    rw [h]
    simp
  have hstruct : ∀ (p q : Nat) (ia ib : ValueInner), p % 8 = 0 → p ≠ 0 → q % 8 = 0 →
      q ≠ 0 → p ≠ q → Value.eq (.alloc p ia) (.alloc q ib) = ValueInner.eq ia ib := by
    intro p q ia ib hp hp0 hq hq0 hpq
    unfold Value.eq
    have hw : ((Value.alloc p ia).reprWord == (Value.alloc q ib).reprWord) = false := by
      show (p == q) = false
      simp only [beq_eq_false_iff_ne, ne_eq]
      exact hpq
    rw [hw]
    rw [halloc p ia hp hp0, halloc q ib hq hq0]
    simp
  have hother : ∀ a b : Value, a.reprWord ≠ b.reprWord →
      (a.is_alloc = false ∨ b.is_alloc = false) → Value.eq a b = false := by
    intro a b hne hnotalloc
    unfold Value.eq
    have hw : (a.reprWord == b.reprWord) = false := by
      simp only [beq_eq_false_iff_ne, ne_eq]
      exact hne
    rw [hw]
    rcases hnotalloc with h | h <;> rw [h] <;> simp
  refine ⟨hsame, hstruct, fun s t => rfl, hother, ?_, ?_⟩
  · intro i p s hp hp0
    have hrepr := fromInteger_reprWord i
    apply hother
    · rw [hrepr]
      show 2 * (i64ToU64 i % 2 ^ 63) + 1 ≠ p
      omega
    · left
      unfold Value.is_alloc Value.is_alloc_or_null
      rw [hrepr, show TAG_MASK = 7 from rfl, and_seven_eq_mod]
      have : ((2 * (i64ToU64 i % 2 ^ 63) + 1) % 8 == 0) = false := by
        simp only [beq_eq_false_iff_ne, ne_eq]
        omega
      rw [this]
      rfl
  · intro p q s hp hp0 hq hq0
    by_cases hpq : p = q
    · exact hsame _ _ (by simpa using hpq)
    · rw [hstruct p q _ _ hp hp0 hq hq0 hpq]
      unfold ValueInner.eq
      simp

/-- Witness for C2 at concrete values (words `8` and `16`, byte sequence
`[104, 105]`, integer `3`). -/
theorem c2_value_equality_witness :
    Value.eq (.alloc 8 (.knstring [104, 105])) (.alloc 8 (.knstring [104, 105])) = true ∧
    Value.eq (.alloc 8 (.knstring [104, 105])) (.alloc 16 (.list .nil)) =
      ValueInner.eq (.knstring [104, 105]) (.list .nil) ∧
    Value.eq (Value.fromInteger 3) (.alloc 8 (.knstring [51])) = false ∧
    Value.eq (.alloc 8 (.knstring [104, 105])) (.alloc 16 (.knstring [104, 105])) = true :=
  ⟨c2_value_equality.1 _ _ rfl,
    c2_value_equality.2.1 8 16 _ _ (by norm_num) (by norm_num) (by norm_num) (by norm_num)
      (by norm_num),
    c2_value_equality.2.2.2.2.1 3 8 [51] (by norm_num) (by norm_num),
    c2_value_equality.2.2.2.2.2 8 16 [104, 105] (by norm_num) (by norm_num) (by norm_num)
      (by norm_num)⟩

/-! ### Helper lemmas about the denotation -/

theorem repSeq_length {α : Type} (n : Nat) (xs : List α) :
    (repSeq n xs).length = n * xs.length := by
  induction n with
  | zero => simp [repSeq]
  | succ k ih =>
    simp [repSeq, ih]
    ring

theorem toSeq_length {α : Type} (l : KnList α) : l.toSeq.length = l.len := by
  induction l with
  | empty => rfl
  | boxed v => rfl
  | slice vs => rfl
  | cons lhs rhs ihl ihr => simp [KnList.toSeq, KnList.len, ihl, ihr]
  | repeated l amount ih =>
    simp [KnList.toSeq, KnList.len, repSeq_length, ih]
    ring

theorem repSeq_add {α : Type} (a b : Nat) (xs : List α) :
    repSeq (a + b) xs = repSeq a xs ++ repSeq b xs := by
  induction a with
  | zero => simp [repSeq]
  | succ k ih =>
    have : k + 1 + b = (k + b) + 1 := by omega
    rw [this]
    simp [repSeq, ih]

theorem repSeq_mul {α : Type} (m n : Nat) (xs : List α) :
    repSeq (m * n) xs = repSeq n (repSeq m xs) := by
  induction n with
  | zero => simp [repSeq]
  | succ k ih =>
    have : m * (k + 1) = m + m * k := by ring
    rw [this, repSeq_add]
    simp [repSeq, ih]

theorem zip_all_beq_self {α : Type} [DecidableEq α] (s : List α) :
    ((s.zip s).all fun p => p.1 == p.2) = true := by
  induction s with
  | nil => rfl
  | cons x xs ih => simp [List.zip, ih]

/-- Equality of denoted sequences gives `PartialEq` equality. -/
theorem eqList_of_toSeq_eq {α : Type} [DecidableEq α] (a b : KnList α)
    (h : a.toSeq = b.toSeq) : KnList.eqList a b = true := by
  unfold KnList.eqList
  have hlen : a.len = b.len := by
    rw [← toSeq_length, ← toSeq_length, h]
  rw [hlen, h]
  simp [zip_all_beq_self]

theorem repSeq_nil {α : Type} (n : Nat) : repSeq n ([] : List α) = [] := by
  induction n with
  | zero => rfl
  | succ k ih => simp [repSeq, ih]

/-- C6: list structural equality is independent of the internal
representation: any two lists denoting the same sequence of values (for
example a cons of two halves and a single flat array) compare equal. -/
theorem c6_list_equality_ignores_representation {α : Type} [DecidableEq α]
    (a b : KnList α) (h : a.toSeq = b.toSeq) : KnList.eqList a b = true :=
  eqList_of_toSeq_eq a b h

/-- Witness for C6: a cons of two halves equals the flat array. -/
theorem c6_list_equality_ignores_representation_witness :
    (KnList.cons (.slice [1, 2]) (.slice [3])).toSeq =
      (KnList.slice ([1, 2, 3] : List Nat)).toSeq ∧
    KnList.eqList (KnList.cons (.slice [1, 2]) (.slice [3]))
      (KnList.slice ([1, 2, 3] : List Nat)) = true :=
  ⟨rfl, c6_list_equality_ignores_representation _ _ rfl⟩

/-- C5: for every list or string `s`, `repeat(s, 0)` is empty,
`repeat(s, 1)` is `s` itself, and `repeat(repeat(s, m), n)` is
structurally equal to `repeat(s, m * n)` when the products fit the
optional cap; internally a list `Repeat` node is only ever built with
count at least 2 (strings are allocated flat).  Conjuncts 1-4 cover
`List::repeat`, conjuncts 5-7 cover the spec-modelled string repeat. -/
theorem c5_repeat_laws {α : Type} [DecidableEq α] (limit : Bool) (s : KnList α) :
    KnList.repeatList limit s 0 = .ok .empty ∧
    ((limit = true → s.len ≤ KN_MAX_LEN) → KnList.repeatList limit s 1 = .ok s) ∧
    (∀ m n : Nat,
      (limit = true → s.len * m ≤ KN_MAX_LEN) →
      (limit = true → s.len * (m * n) ≤ KN_MAX_LEN) →
      ∃ l₁ l₂ l₃, KnList.repeatList limit s m = .ok l₁ ∧
        KnList.repeatList limit l₁ n = .ok l₂ ∧
        KnList.repeatList limit s (m * n) = .ok l₃ ∧
        KnList.eqList l₂ l₃ = true) ∧
    (∀ (amount : Nat) (l : KnList α), KnList.repeatList limit s amount = .ok l →
      l = .empty ∨ l = s ∨ (l = .repeated s amount ∧ 2 ≤ amount)) ∧
    (∀ t : List Nat, strRepeat limit t 0 = .ok []) ∧
    (∀ t : List Nat, strRepeat limit t 1 = .ok t) ∧
    (∀ (t : List Nat) (m n : Nat),
      (limit = true → t.length * m ≤ KN_MAX_LEN) →
      (limit = true → t.length * (m * n) ≤ KN_MAX_LEN) →
      ∃ u v w, strRepeat limit t m = .ok u ∧
        strRepeat limit u n = .ok v ∧
        strRepeat limit t (m * n) = .ok w ∧
        v = w) := by
  have cond_false : ∀ (t : KnList α) (k : Nat), (limit = true → t.len * k ≤ KN_MAX_LEN) →
      (limit && decide (KN_MAX_LEN < t.len * k)) = false := by
    intro t k hk
    cases limit with
    | false => rfl
    | true =>
      simp only [Bool.true_and, decide_eq_false_iff_not, not_lt]
      exact hk rfl
  have repeat_ok : ∀ (t : KnList α) (k : Nat), (limit = true → t.len * k ≤ KN_MAX_LEN) →
      KnList.repeatList limit t k = .ok (repeatResult t k) := by
    intro t k hk
    unfold KnList.repeatList
    rw [cond_false t k hk]
    match k with
    | 0 => rfl
    | 1 => rfl
    | _ + 2 => rfl
  have repeatResult_two : ∀ (t : KnList α) (k : Nat),
      repeatResult t (k + 2) = .repeated t (k + 2) := fun _ _ => rfl
  have repeat0 : KnList.repeatList limit s 0 = .ok .empty :=
    repeat_ok s 0 (by intro _; simp)
  have str_ok : ∀ (t : List Nat) (k : Nat), (limit = true → t.length * k ≤ KN_MAX_LEN) →
      strRepeat limit t k = .ok (strRepeatResult t k) := by
    intro t k hk
    match k with
    | 0 => rfl
    | 1 => rfl
    | kk + 2 =>
      unfold strRepeat strRepeatResult
      have hfalse : (limit && decide (KN_MAX_LEN < t.length * (kk + 2))) = false := by
        cases limit with
        | false => rfl
        | true =>
          simp only [Bool.true_and, decide_eq_false_iff_not, not_lt]
          exact hk rfl
      rw [hfalse]
      rfl
  refine ⟨repeat0, ?_, ?_, ?_, fun t => rfl, fun t => rfl, ?_⟩
  · intro h1
    exact repeat_ok s 1 (by simpa using h1)
  · intro m n hm hmn
    match m with
    | 0 =>
      have h2 : KnList.repeatList limit (.empty : KnList α) n =
          .ok (repeatResult .empty n) :=
        repeat_ok (.empty : KnList α) n (by intro _; simp [KnList.len])
      have h3 : KnList.repeatList limit s (0 * n) = .ok .empty := by
        rw [Nat.zero_mul]
        exact repeat0
      refine ⟨.empty, _, .empty, repeat0, h2, h3, ?_⟩
      apply eqList_of_toSeq_eq
      match n with
      | 0 => rfl
      | 1 => rfl
      | k + 2 => simp [repeatResult, KnList.toSeq, repSeq_nil]
    | 1 =>
      have h1 : KnList.repeatList limit s 1 = .ok s :=
        repeat_ok s 1 (by simpa using hm)
      have h2 : KnList.repeatList limit s n = .ok (repeatResult s n) :=
        repeat_ok s n (by intro hl; simpa using hmn hl)
      have h3 : KnList.repeatList limit s (1 * n) = .ok (repeatResult s n) := by
        rw [Nat.one_mul]
        exact h2
      exact ⟨s, _, _, h1, h2, h3, eqList_of_toSeq_eq _ _ rfl⟩
    | mm + 2 =>
      have h1 : KnList.repeatList limit s (mm + 2) = .ok (.repeated s (mm + 2)) :=
        repeat_ok s (mm + 2) hm
      have hlen : (KnList.repeated s (mm + 2)).len = s.len * (mm + 2) := rfl
      have hside : limit = true → (KnList.repeated s (mm + 2)).len * n ≤ KN_MAX_LEN := by
        intro hl
        rw [hlen, mul_assoc]
        exact hmn hl
      match n with
      | 0 =>
        have h2 : KnList.repeatList limit (.repeated s (mm + 2)) 0 = .ok .empty :=
          repeat_ok _ 0 hside
        have h3 : KnList.repeatList limit s ((mm + 2) * 0) = .ok .empty := by
          rw [Nat.mul_zero]
          exact repeat0
        exact ⟨_, _, _, h1, h2, h3, eqList_of_toSeq_eq _ _ rfl⟩
      | 1 =>
        have h2 : KnList.repeatList limit (.repeated s (mm + 2)) 1 =
            .ok (.repeated s (mm + 2)) :=
          repeat_ok _ 1 hside
        have h3 : KnList.repeatList limit s ((mm + 2) * 1) = .ok (.repeated s (mm + 2)) := by
          rw [Nat.mul_one]
          exact h1
        exact ⟨_, _, _, h1, h2, h3, eqList_of_toSeq_eq _ _ rfl⟩
      | nn + 2 =>
        have h2 : KnList.repeatList limit (.repeated s (mm + 2)) (nn + 2) =
            .ok (.repeated (.repeated s (mm + 2)) (nn + 2)) :=
          repeat_ok _ (nn + 2) hside
        have hform : (mm + 2) * (nn + 2) = (mm * nn + 2 * mm + 2 * nn + 2) + 2 := by ring
        have h3 : KnList.repeatList limit s ((mm + 2) * (nn + 2)) =
            .ok (.repeated s ((mm + 2) * (nn + 2))) := by
          have h := repeat_ok s ((mm + 2) * (nn + 2)) hmn
          rw [hform] at h ⊢
          exact h
        refine ⟨_, _, _, h1, h2, h3, ?_⟩
        apply eqList_of_toSeq_eq
        show repSeq (nn + 2) (repSeq (mm + 2) s.toSeq) = repSeq ((mm + 2) * (nn + 2)) s.toSeq
        rw [repSeq_mul]
  · intro amount l hok
    unfold KnList.repeatList at hok
    by_cases hcond : (limit && decide (KN_MAX_LEN < s.len * amount)) = true
    · rw [if_pos hcond] at hok
      exact absurd hok (by simp)
    · rw [if_neg hcond] at hok
      match amount, hok with
      | 0, hok => exact Or.inl (by injection hok with h; exact h.symm)
      | 1, hok => exact Or.inr (Or.inl (by injection hok with h; exact h.symm))
      | k + 2, hok =>
        refine Or.inr (Or.inr ⟨?_, by omega⟩)
        injection hok with h
        exact h.symm
  · intro t m n hm hmn
    match m with
    | 0 =>
      have h2 : strRepeat limit ([] : List Nat) n = .ok (strRepeatResult [] n) :=
        str_ok [] n (by intro _; simp)
      have h3 : strRepeat limit t (0 * n) = .ok [] := by
        rw [Nat.zero_mul]
        exact rfl
      refine ⟨[], _, [], rfl, h2, h3, ?_⟩
      match n with
      | 0 => rfl
      | 1 => rfl
      | k + 2 => simp [strRepeatResult, repSeq_nil]
    | 1 =>
      have h2 : strRepeat limit t n = .ok (strRepeatResult t n) :=
        str_ok t n (by intro hl; simpa using hmn hl)
      have h3 : strRepeat limit t (1 * n) = .ok (strRepeatResult t n) := by
        rw [Nat.one_mul]
        exact h2
      exact ⟨t, _, _, rfl, h2, h3, rfl⟩
    | mm + 2 =>
      have h1 : strRepeat limit t (mm + 2) = .ok (repSeq (mm + 2) t) :=
        str_ok t (mm + 2) hm
      have hside : limit = true → (repSeq (mm + 2) t).length * n ≤ KN_MAX_LEN := by
        intro hl
        rw [repSeq_length]
        calc (mm + 2) * t.length * n = t.length * ((mm + 2) * n) := by ring
          _ ≤ KN_MAX_LEN := hmn hl
      match n with
      | 0 =>
        have h3 : strRepeat limit t ((mm + 2) * 0) = .ok [] := by
          rw [Nat.mul_zero]
          exact rfl
        exact ⟨_, _, _, h1, rfl, h3, rfl⟩
      | 1 =>
        have h3 : strRepeat limit t ((mm + 2) * 1) = .ok (repSeq (mm + 2) t) := by
          rw [Nat.mul_one]
          exact h1
        exact ⟨_, _, _, h1, rfl, h3, rfl⟩
      | nn + 2 =>
        have h2 : strRepeat limit (repSeq (mm + 2) t) (nn + 2) =
            .ok (repSeq (nn + 2) (repSeq (mm + 2) t)) :=
          str_ok _ (nn + 2) hside
        have hform : (mm + 2) * (nn + 2) = (mm * nn + 2 * mm + 2 * nn + 2) + 2 := by ring
        have h3 : strRepeat limit t ((mm + 2) * (nn + 2)) =
            .ok (repSeq ((mm + 2) * (nn + 2)) t) := by
          have h := str_ok t ((mm + 2) * (nn + 2)) hmn
          rw [hform] at h ⊢
          exact h
        refine ⟨_, _, _, h1, h2, h3, ?_⟩
        rw [repSeq_mul]

/-- Witness for C5 at `s = [7, 8]` (as a list and as a byte string),
`limit = true`, `m = 2`, `n = 3`. -/
theorem c5_repeat_laws_witness :
    KnList.repeatList true (KnList.slice ([7, 8] : List Nat)) 0 = .ok .empty ∧
    KnList.repeatList true (KnList.slice ([7, 8] : List Nat)) 1 =
      .ok (KnList.slice [7, 8]) ∧
    (∃ l₁ l₂ l₃, KnList.repeatList true (KnList.slice ([7, 8] : List Nat)) 2 = .ok l₁ ∧
      KnList.repeatList true l₁ 3 = .ok l₂ ∧
      KnList.repeatList true (KnList.slice ([7, 8] : List Nat)) (2 * 3) = .ok l₃ ∧
      KnList.eqList l₂ l₃ = true) ∧
    strRepeat true [7, 8] 0 = .ok [] ∧
    strRepeat true [7, 8] 1 = .ok [7, 8] ∧
    (∃ u v w, strRepeat true [7, 8] 2 = .ok u ∧
      strRepeat true u 3 = .ok v ∧
      strRepeat true [7, 8] (2 * 3) = .ok w ∧
      v = w) :=
  ⟨(c5_repeat_laws true _).1,
    (c5_repeat_laws true _).2.1 (by intro _; decide),
    (c5_repeat_laws true _).2.2.1 2 3 (by intro _; decide) (by intro _; decide),
    (c5_repeat_laws (α := Nat) true (KnList.slice [7, 8])).2.2.2.2.1 [7, 8],
    (c5_repeat_laws (α := Nat) true (KnList.slice [7, 8])).2.2.2.2.2.1 [7, 8],
    (c5_repeat_laws (α := Nat) true (KnList.slice [7, 8])).2.2.2.2.2.2 [7, 8] 2 3
      (by intro _; decide) (by intro _; decide)⟩

/-- C10 (a code bug): indexed access does not agree with iteration on a
`Repeat` representation.  For the list `repeat([10, 20, 30], 2)` (length
6), `get(3)` returns the base element at `3 % amount = 1` whereas
iteration yields the element at `3 % 3 = 0`, and `get(6)` returns a value
although only indices below the length should be `Some`. -/
theorem c10_get_repeat_disagrees_with_iter :
    KnList.repeatList false (KnList.slice ([10, 20, 30] : List Nat)) 2 =
      .ok (KnList.repeated (.slice [10, 20, 30]) 2) ∧
    (KnList.repeated (.slice ([10, 20, 30] : List Nat)) 2).len = 6 ∧
    (KnList.repeated (.slice ([10, 20, 30] : List Nat)) 2).getIdx 3 = some 20 ∧
    (KnList.repeated (.slice ([10, 20, 30] : List Nat)) 2).toSeq.get? 3 = some 10 ∧
    (KnList.repeated (.slice ([10, 20, 30] : List Nat)) 2).getIdx 6 = some 10 :=
  ⟨rfl, rfl, by decide, by decide, by decide⟩

mutual

theorem checkStrict_false_of_containsBlock :
    ∀ v : TwValue, v.containsBlock = true → v.checkStrict = false
  | .ast _, _ => rfl
  | .list l, h => checkStrictL_false_of_containsBlockL l h
  | .null, h => by simp [TwValue.containsBlock] at h
  | .boolean _, h => by simp [TwValue.containsBlock] at h
  | .integer _, h => by simp [TwValue.containsBlock] at h
  | .text _, h => by simp [TwValue.containsBlock] at h
  | .variableRef _, h => by simp [TwValue.containsBlock] at h

theorem checkStrictL_false_of_containsBlockL :
    ∀ l : TwList, l.containsBlock = true → l.checkStrict = false
  | .nil, h => by simp [TwList.containsBlock] at h
  | .cons hd tl, h => by
    rw [TwList.containsBlock] at h
    rw [TwList.checkStrict]
    rcases Bool.or_eq_true _ _ |>.mp h with hh | ht
    · rw [checkStrict_false_of_containsBlock hd hh]
      rfl
    · rw [checkStrictL_false_of_containsBlockL tl ht]
      exact Bool.and_false _

end

/-- C7: with `check_equals_params` enabled, evaluating `?` raises a type
error whenever either argument is a block or a list transitively
containing a block; with the option disabled no such error is raised and
the derived equality is returned. -/
theorem c7_check_equals_params_rejects_blocks (a b : TwValue) :
    ((a.containsBlock = true ∨ b.containsBlock = true) →
      TwValue.equals true a b = .error ()) ∧
    TwValue.equals false a b = .ok (TwValue.beqV a b) := by
  constructor
  · intro h
    unfold TwValue.equals
    rcases h with ha | hb
    · rw [checkStrict_false_of_containsBlock a ha]
      rfl
    · cases hca : TwValue.checkStrict a with
      | false => rfl
      | true =>
        rw [checkStrict_false_of_containsBlock b hb]
        rfl
  · rfl

/-- Witness for C7 at `a = BLOCK`, `b = [BLOCK]` (a list holding a block). -/
theorem c7_check_equals_params_rejects_blocks_witness :
    TwValue.equals true (.ast 0) (.list (.cons (.ast 1) .nil)) = .error () ∧
    TwValue.equals false (.ast 0) (.list (.cons (.ast 1) .nil)) =
      .ok (TwValue.beqV (.ast 0) (.list (.cons (.ast 1) .nil))) :=
  ⟨(c7_check_equals_params_rejects_blocks _ _).1 (Or.inl rfl),
    (c7_check_equals_params_rejects_blocks _ _).2⟩

theorem getIndexOf_eq_none {α : Type} [DecidableEq α] (xs : List α) (a : α)
    (h : a ∉ xs) : getIndexOf xs a = none := by
  induction xs with
  | nil => rfl
  | cons x xs ih =>
    rw [getIndexOf]
    rw [if_neg (by intro hx; exact h (hx ▸ List.mem_cons_self x xs))]
    rw [ih (fun hm => h (List.mem_cons_of_mem x hm))]
    rfl

/-- C8 (a code bug): with `variable_count` enabled, a 65536th distinct
variable is still accepted.  The check `i > MAX_VARIABLE_COUNT` fires only
when 65536 variables already exist, so the documented cap of 65535
distinct variables ("Ensures that at most MAX_VARIABLE_COUNT variables are
used") is exceeded by one: from a table already holding 65535 names, a
fresh name is interned at index 65535 instead of failing. -/
theorem c8_variable_cap_off_by_one (opts : ComplianceOpts)
    (vars : List (List Nat)) (name : List Nat)
    (_hcount : opts.variable_count = true)
    (hlen : opts.variable_name_length = false)
    (hnew : name ∉ vars)
    (hfull : vars.length = MAX_VARIABLE_COUNT) :
    variable_index opts vars name = .ok (MAX_VARIABLE_COUNT, vars ++ [name]) := by
  unfold variable_index
  rw [hlen]
  rw [getIndexOf_eq_none vars name hnew]
  show (if opts.variable_count && decide (MAX_VARIABLE_COUNT < vars.length) then _ else _) = _
  rw [hfull]
  simp

/-- Witness for C8: a table of 65535 distinct one-byte-sequence names,
plus the fresh name `[65535]`. -/
theorem c8_variable_cap_off_by_one_witness :
    variable_index ⟨false, true⟩ ((List.range 65535).map fun n => [n]) [65535] =
      .ok (MAX_VARIABLE_COUNT, ((List.range 65535).map fun n => [n]) ++ [[65535]]) :=
  c8_variable_cap_off_by_one ⟨false, true⟩ _ _ rfl rfl
    (by
      intro hm
      rw [List.mem_map] at hm
      obtain ⟨x, hx, hxe⟩ := hm
      rw [List.mem_range] at hx
      have : x = 65535 := by
        injection hxe with h1 _
      omega)
    (by rw [List.length_map, List.length_range]; rfl)

/-- C3: at every iteration of the dispatch loop, an opcode of arity `N`
removes the top `N` values from the operand stack before the operator body
runs, and pushes `0` or `1` results: after every successful non-jump step
the stack is some `pushed` (at most one value) on top of the old stack
with its top `N` values removed, so its height is the old height minus `N`
plus `0` or `1`. -/
theorem c3_stack_discipline {α : Type} (code : Nat → Opcode × Nat) (o : VmOracle α)
    (s s' : VmState α) (op : Opcode) (offset : Nat)
    (hc : code s.currentIndex = (op, offset))
    (hnj : op.isJump = false)
    (hstep : vmStep code o s = .next s') :
    ∃ pushed : List α, pushed.length ≤ 1 ∧
      s'.stack = pushed ++ s.stack.drop op.arity ∧
      s'.stack.length = s.stack.length - op.arity + pushed.length := by
  obtain ⟨stack, ci, vars⟩ := s
  simp only at hc
  simp only [vmStep, hc] at hstep
  cases op <;>
    first
    | exact absurd hnj (by decide)
    | (simp only [execOpcode] at hstep
       simp only [Opcode.arity]
       repeat' split at hstep
       all_goals
         first
         | exact StepOutcome.noConfusion hstep
         | (injection hstep with h
            subst h
            first
            | exact ⟨[], by simp, rfl, by simp⟩
            | exact ⟨[_], by simp, rfl, by simp⟩))

/-- Witness for C3 at the `Add` opcode, applied to the stack `[2, 3]`
(the step computes `3 + 2` and pushes `5`). -/
theorem c3_stack_discipline_witness :
    ∃ pushed : List Nat, pushed.length ≤ 1 ∧
      (VmState.mk [5] 1 ([] : List (Option Nat))).stack =
        pushed ++ (VmState.mk [2, 3] 0 ([] : List (Option Nat))).stack.drop
          Opcode.add.arity ∧
      (VmState.mk [5] 1 ([] : List (Option Nat))).stack.length =
        (VmState.mk [2, 3] 0 ([] : List (Option Nat))).stack.length -
          Opcode.add.arity + pushed.length :=
  c3_stack_discipline (fun _ => (Opcode.add, 0)) natOracle
    ⟨[2, 3], 0, []⟩ ⟨[5], 1, []⟩ .add 0 rfl rfl rfl

theorem list_set_at_append_length {α : Type} (A : List α) (a b : α) (B : List α) :
    (A ++ a :: B).set A.length b = A ++ b :: B := by
  induction A with
  | nil => rfl
  | cons x xs ih => simp [List.set, ih]

/-- C4 (a code bug): the `'W'` branch emits exactly
`L1: cond; JumpIfFalse L2; body; Jump L1; L2:` — but this sequence pushes
no NULL: running the compiled program `WHILE FALSE 1` (condition false at
once, so zero iterations) leaves the operand stack empty, and the final
`Return` of `build` (arity 1) underflows, instead of the single
null result the claim describes. -/
theorem c4_while_emits_loop_without_null :
    (∀ (c : Compiler) (condCode bodyCode : List (Opcode × Nat)),
      (compileWhile c condCode bodyCode).code =
        c.code ++ condCode.map some ++
          [some (.jumpIfFalse,
            c.code.length + condCode.length + 1 + bodyCode.length + 1)] ++
          bodyCode.map some ++ [some (.jump, c.code.length)]) ∧
    vmRun (codeAt whileProgram) whileOracle 10 ⟨[], 0, []⟩ = .error := by
  constructor
  · intro c condCode bodyCode
    unfold compileWhile Compiler.jumpTo Compiler.append Compiler.defer_jump
      Compiler.patchJump Compiler.jump_index
    simp only []
    rw [list_set_at_append_length]
    rw [show c.code ++ List.map some condCode ++ [none] ++ List.map some bodyCode ++
          [some (JumpWhen.always.opcode, c.code.length)] =
        (c.code ++ List.map some condCode) ++
          (none :: (List.map some bodyCode ++
            [some (JumpWhen.always.opcode, c.code.length)])) from by simp]
    rw [list_set_at_append_length]
    simp [JumpWhen.opcode, List.append_assoc]
    omega
  · rfl

end Knightrs
